import Mathlib

/-!
# Verification of the Prologix GPIB-Ethernet bridge communication layer

Shallow embedding of `src/prologix.py`.  The TCP socket is modelled as a
trace of single-byte receive outcomes (`some b` = the byte `b` arrived,
`none` = the receive timed out), consumed one element per `recv(1)` call.
Bytes sent on the socket, log output, the receive-timeout setting and the
currently addressed device are threaded through an explicit session state.
-/

namespace Prologix

/-- One entry of the communication log (`CommLog.write` / `CommLog.event`). -/
inductive LogEntry where
  | write (tag : String) (data : List Nat) : LogEntry
  | event (msg : String) : LogEntry
deriving DecidableEq, Repr

/-- Bytes of an ASCII string, as sent on the socket by `str.encode()`. -/
def strBytes (s : String) : List Nat :=
  s.data.map Char.toNat

/-- The primary receive timeout: `TIMEOUT = 0.1` seconds. -/
def TIMEOUT : ℚ := 1 / 10

/-- The literal `0.01` passed to `settimeout` in the ambiguous-marker branch. -/
def FAST_TIMEOUT : ℚ := 1 / 100

/-- The end-of-transmission marker byte: `EOT_BREAK_CHAR = 123` (0x7B). -/
def EOT_BREAK_CHAR : Nat := 123

/-- Bytes of the read directive, `++read eoi` plus LF. -/
def readDirective : List Nat :=
  strBytes "++read eoi" ++ [10]

/-- Bytes of the address-select directive, `++addr` plus the decimal
address plus LF. -/
def addrDirective (addr : Int) : List Nat :=
  strBytes "++addr " ++ strBytes (toString addr) ++ [10]

/-- The observable session state of a `Prologix` object: the currently
addressed device, the socket receive timeout, the chronological list of
`sock.send` payloads, and the log entries written so far. -/
structure ProState where
  current_addr : Int
  timeout : ℚ
  sent : List (List Nat)
  log : List LogEntry
deriving DecidableEq, Repr

/-- State after `__init__`: no device addressed (`current_addr = -1`), the
four configuration directives sent, and the receive timeout set to `TIMEOUT`. -/
def initState : ProState :=
  { current_addr := -1
    timeout := TIMEOUT
    sent := [strBytes "++auto 0" ++ [10],
             strBytes "++eos 2" ++ [10],
             strBytes "++eot_enable 1" ++ [10],
             strBytes "++eot_char " ++ strBytes (toString EOT_BREAK_CHAR) ++ [10]]
    log := [] }

/-- Embeds `Prologix._escape_cmd`: prefix each of LF (10), CR (13), ESC (27),
`+` (43) with an ESC byte; copy every other byte unchanged. -/
def _escape_cmd : List Nat → List Nat
  | [] => []
  | ch :: rest =>
      (if ch = 10 ∨ ch = 13 ∨ ch = 27 ∨ ch = 43 then [27, ch] else [ch])
        ++ _escape_cmd rest

/-- Modelled from the spec: the bridge-side unescaping (the bridge device
itself is not part of the repository), which drops each ESC (27) prefix and
keeps the byte that follows it literally. -/
def unescape_bridge : List Nat → List Nat
  | [] => []
  | ch :: rest =>
      if ch = 27 then
        match rest with
        | [] => []
        | ch2 :: rest2 => ch2 :: unescape_bridge rest2
      else ch :: unescape_bridge rest

/-- Embeds `Prologix._address_device`: emit `++addr` and update `current_addr`
only when the requested address differs from the current one. -/
def _address_device (st : ProState) (addr : Int) : ProState :=
  if st.current_addr ≠ addr then
    { st with sent := st.sent ++ [addrDirective addr], current_addr := addr }
  else st

/-- Embeds `Prologix.send_command`: address the device if needed, escape the
command, append an unescaped LF, log the outgoing bytes tagged with the
(now current) destination address, and send them. -/
def send_command (st : ProState) (cmd : List Nat) (addr : Int) : ProState :=
  let st1 := if st.current_addr ≠ addr then _address_device st addr else st
  let send := _escape_cmd cmd ++ [10]
  { st1 with
      log := st1.log ++ [LogEntry.write ("Send to " ++ toString st1.current_addr) send]
      sent := st1.sent ++ [send] }

/-- Result of a `read_until_eoi` call: `result = some data` when the call
returned `data`; `result = none` when the supplied receive trace was
exhausted with the call still blocked in a `recv` (the call has not
completed within the scenario).  `state` is the session state at that
point and `rest` the unconsumed part of the trace. -/
structure ReadResult where
  result : Option (List Nat)
  state : ProState
  rest : List (Option Nat)
deriving DecidableEq, Repr

/-- The `while True` receive loop of `Prologix.read_until_eoi`, consuming
one trace element per `sock.recv(1)`.  A `none` element raises
`TimeoutError`: the loop logs the event, re-sends `++read eoi` and
continues.  A received byte is logged and appended; if it equals
`EOT_BREAK_CHAR` the loop switches to the fast timeout and tries one more
receive: on timeout it returns the accumulator without its last byte, on
success it appends the new byte and resumes; either way the `finally`
block restores `TIMEOUT`. -/
def readLoop (hdr : String) (st : ProState) (acc : List Nat) :
    List (Option Nat) → ReadResult
  | [] => ⟨none, st, []⟩
  | none :: rest =>
      readLoop hdr
        { st with
            log := st.log ++ [LogEntry.event "Timeouted. Issuing another ++read"]
            sent := st.sent ++ [readDirective] }
        acc rest
  | some b :: rest =>
      let st1 := { st with log := st.log ++ [LogEntry.write hdr [b]] }
      let acc1 := acc ++ [b]
      if b = EOT_BREAK_CHAR then
        let st2 := { st1 with
                       log := st1.log ++ [LogEntry.event "Potential EOT break"]
                       timeout := FAST_TIMEOUT }
        match rest with
        | [] => ⟨none, st2, []⟩
        | none :: rest2 =>
            ⟨some acc1.dropLast,
             { st2 with
                 log := st2.log ++ [LogEntry.event "EOT break was real"]
                 timeout := TIMEOUT },
             rest2⟩
        | some b2 :: rest2 =>
            readLoop hdr
              { st2 with
                  log := st2.log ++ [LogEntry.event "Fake EOT, continuing",
                                     LogEntry.write hdr [b2]]
                  timeout := TIMEOUT }
              (acc1 ++ [b2]) rest2
      else
        readLoop hdr st1 acc1 rest

/-- Embeds `Prologix.read_until_eoi`: address the device if needed, send
`++read eoi` once, then run the receive loop on the given trace. -/
def read_until_eoi (st : ProState) (addr : Int) (trace : List (Option Nat)) :
    ReadResult :=
  let st1 := if st.current_addr ≠ addr then _address_device st addr else st
  let data_hdr := "Recv from " ++ toString st1.current_addr
  let st2 := { st1 with sent := st1.sent ++ [readDirective] }
  readLoop data_hdr st2 [] trace

/-- The returned data of the receive loop, as a function of the accumulator
and the trace alone (the returned data of the loop never reads the session
state; `readLoop_result` below proves the agreement). -/
def pureRead (acc : List Nat) : List (Option Nat) → Option (List Nat)
  | [] => none
  | none :: rest => pureRead acc rest
  | some b :: rest =>
      if b = EOT_BREAK_CHAR then
        match rest with
        | [] => none
        | none :: _ => some (acc ++ [b]).dropLast
        | some b2 :: rest2 => pureRead (acc ++ [b] ++ [b2]) rest2
      else pureRead (acc ++ [b]) rest

/-- The socket sends emitted by the receive loop, as a function of the
trace alone: one `++read eoi` per main-loop timeout, nothing else. -/
def sentDelta : List (Option Nat) → List (List Nat)
  | [] => []
  | none :: rest => readDirective :: sentDelta rest
  | some b :: rest =>
      if b = EOT_BREAK_CHAR then
        match rest with
        | [] => []
        | none :: _ => []
        | some _ :: rest2 => sentDelta rest2
      else sentDelta rest

/-- Receiving an ordinary (non-marker) byte: log it, append it, loop. -/
lemma readLoop_cons_ne (hdr : String) (st : ProState) (acc : List Nat)
    (c : Nat) (hc : c ≠ EOT_BREAK_CHAR) (T : List (Option Nat)) :
    readLoop hdr st acc (some c :: T)
      = readLoop hdr { st with log := st.log ++ [LogEntry.write hdr [c]] }
          (acc ++ [c]) T := by
  match T with
  | [] => simp [readLoop, hc]
  | none :: tl => simp [readLoop, hc]
  | some b :: tl => simp [readLoop, hc]

lemma pureRead_cons_ne (c : Nat) (hc : c ≠ EOT_BREAK_CHAR) (acc : List Nat)
    (T : List (Option Nat)) :
    pureRead acc (some c :: T) = pureRead (acc ++ [c]) T := by
  match T with
  | [] => simp [pureRead, hc]
  | none :: tl => simp [pureRead, hc]
  | some b :: tl => simp [pureRead, hc]

lemma sentDelta_cons_ne (c : Nat) (hc : c ≠ EOT_BREAK_CHAR)
    (T : List (Option Nat)) :
    sentDelta (some c :: T) = sentDelta T := by
  match T with
  | [] => simp [sentDelta, hc]
  | none :: tl => simp [sentDelta, hc]
  | some b :: tl => simp [sentDelta, hc]

/-- The returned data of the loop never reads the session state. -/
lemma readLoop_result (hdr : String) (acc : List Nat) (tr : List (Option Nat)) :
    ∀ st : ProState, (readLoop hdr st acc tr).result = pureRead acc tr := by
  induction acc, tr using pureRead.induct with
  | case1 acc => intro st; simp [readLoop, pureRead]
  | case2 acc tail ih => intro st; simp only [readLoop, pureRead]; exact ih _
  | case3 acc => intro st; simp [readLoop, pureRead]
  | case4 acc tail => intro st; simp [readLoop, pureRead]
  | case5 acc b2 rest2 ih => intro st; simp only [readLoop, pureRead, if_pos rfl]; exact ih _
  | case6 acc b2 rest2 hb ih =>
      intro st
      rw [readLoop_cons_ne hdr st acc b2 hb rest2, pureRead_cons_ne b2 hb acc rest2]
      exact ih _

/-- The socket sends of the loop are exactly `sentDelta` of the trace, appended
to whatever was already sent. -/
lemma readLoop_sent (hdr : String) (acc : List Nat) (tr : List (Option Nat)) :
    ∀ st : ProState, (readLoop hdr st acc tr).state.sent = st.sent ++ sentDelta tr := by
  induction acc, tr using pureRead.induct with
  | case1 acc => intro st; simp [readLoop, sentDelta]
  | case2 acc tail ih =>
      intro st
      simp only [readLoop, sentDelta]
      rw [ih]
      simp
  | case3 acc => intro st; simp [readLoop, sentDelta]
  | case4 acc tail => intro st; simp [readLoop, sentDelta]
  | case5 acc b2 rest2 ih =>
      intro st
      simp only [readLoop, sentDelta, if_pos rfl]
      exact ih _
  | case6 acc b2 rest2 hb ih =>
      intro st
      rw [readLoop_cons_ne hdr st acc b2 hb rest2, sentDelta_cons_ne b2 hb rest2]
      exact ih _

/-- The loop never touches `current_addr`. -/
lemma readLoop_current_addr (hdr : String) (acc : List Nat) (tr : List (Option Nat)) :
    ∀ st : ProState, (readLoop hdr st acc tr).state.current_addr = st.current_addr := by
  induction acc, tr using pureRead.induct with
  | case1 acc => intro st; simp [readLoop]
  | case2 acc tail ih => intro st; simp only [readLoop]; exact ih _
  | case3 acc => intro st; simp [readLoop]
  | case4 acc tail => intro st; simp [readLoop]
  | case5 acc b2 rest2 ih => intro st; simp only [readLoop, if_pos rfl]; exact ih _
  | case6 acc b2 rest2 hb ih =>
      intro st
      rw [readLoop_cons_ne hdr st acc b2 hb rest2]
      exact ih _

lemma read_until_eoi_result (st : ProState) (addr : Int) (tr : List (Option Nat)) :
    (read_until_eoi st addr tr).result = pureRead [] tr := by
  simp only [read_until_eoi]
  rw [readLoop_result]

lemma read_until_eoi_sent (st : ProState) (addr : Int) (tr : List (Option Nat)) :
    (read_until_eoi st addr tr).state.sent
      = st.sent ++ (if st.current_addr ≠ addr then [addrDirective addr] else [])
          ++ [readDirective] ++ sentDelta tr := by
  simp only [read_until_eoi]
  rw [readLoop_sent]
  by_cases h : st.current_addr = addr <;> simp [_address_device, h]

lemma read_until_eoi_current_addr (st : ProState) (addr : Int) (tr : List (Option Nat)) :
    (read_until_eoi st addr tr).state.current_addr = addr := by
  simp only [read_until_eoi]
  rw [readLoop_current_addr]
  by_cases h : st.current_addr = addr <;> simp [_address_device, h]

/-- Feeding marker-free payload bytes into the loop just accumulates them. -/
lemma pureRead_feed (payload : List Nat) (hp : ∀ b ∈ payload, b ≠ EOT_BREAK_CHAR) :
    ∀ (acc : List Nat) (tail : List (Option Nat)),
      pureRead acc (payload.map some ++ tail) = pureRead (acc ++ payload) tail := by
  induction payload with
  | nil => intro acc tail; simp
  | cons c rest ih =>
      intro acc tail
      have hc : c ≠ EOT_BREAK_CHAR := hp c (by simp)
      simp only [List.map_cons, List.cons_append]
      rw [pureRead_cons_ne c hc, ih (fun b hb => hp b (by simp [hb]))]
      simp

lemma pureRead_replicate_none (k : Nat) (acc : List Nat) :
    pureRead acc (List.replicate k none) = none := by
  induction k with
  | zero => simp [pureRead]
  | succ n ih => simpa [List.replicate_succ, pureRead] using ih

lemma pureRead_replicate_none_append (k : Nat) (acc : List Nat)
    (tail : List (Option Nat)) :
    pureRead acc (List.replicate k none ++ tail) = pureRead acc tail := by
  induction k with
  | zero => simp
  | succ n ih => simpa [List.replicate_succ, pureRead] using ih

lemma unescape_bridge_cons_ne (c : Nat) (hc : c ≠ 27) (T : List Nat) :
    unescape_bridge (c :: T) = c :: unescape_bridge T := by
  match T with
  | [] => simp [unescape_bridge, hc]
  | d :: tl => simp [unescape_bridge, hc]

lemma sentDelta_feed (payload : List Nat) (hp : ∀ b ∈ payload, b ≠ EOT_BREAK_CHAR) :
    ∀ tail : List (Option Nat),
      sentDelta (payload.map some ++ tail) = sentDelta tail := by
  induction payload with
  | nil => intro tail; simp
  | cons c rest ih =>
      intro tail
      have hc : c ≠ EOT_BREAK_CHAR := hp c (by simp)
      simp only [List.map_cons, List.cons_append]
      rw [sentDelta_cons_ne c hc]
      exact ih (fun b hb => hp b (by simp [hb])) tail

lemma sentDelta_replicate_none (k : Nat) (tail : List (Option Nat)) :
    sentDelta (List.replicate k none ++ tail)
      = List.replicate k readDirective ++ sentDelta tail := by
  induction k with
  | zero => simp
  | succ n ih => simp [List.replicate_succ, sentDelta, ih]

lemma sentDelta_replicate_none_nil (k : Nat) :
    sentDelta (List.replicate k none) = List.replicate k readDirective := by
  have h := sentDelta_replicate_none k []
  simpa [sentDelta] using h

lemma sentDelta_marker_some (b : Nat) (R : List (Option Nat)) :
    sentDelta (some EOT_BREAK_CHAR :: some b :: R) = sentDelta R := by
  simp [sentDelta]

lemma sentDelta_marker_none (R : List (Option Nat)) :
    sentDelta (some EOT_BREAK_CHAR :: none :: R) = [] := by
  simp [sentDelta]

lemma addrDirective_ne_readDirective (a : Int) :
    addrDirective a ≠ readDirective := by
  have e1 : strBytes "++addr " = [43, 43, 97, 100, 100, 114, 32] := by decide
  have e2 : readDirective = [43, 43, 114, 101, 97, 100, 32, 101, 111, 105, 10] := by
    decide
  intro h
  rw [addrDirective, e1, e2] at h
  simp at h





/-- C1: for every transport trace delivering marker-free payload bytes followed
by the end-of-transmission marker byte (`EOT_BREAK_CHAR` = 0x7B), where the
subsequent single-byte receive in the secondary timeout window times out,
`read_until_eoi` returns exactly the payload with the trailing marker
stripped. -/
theorem read_until_eoi_genuine_end (st : ProState) (addr : Int)
    (payload : List Nat) (hp : ∀ b ∈ payload, b ≠ EOT_BREAK_CHAR) :
    (read_until_eoi st addr
        (payload.map some ++ [some EOT_BREAK_CHAR, none])).result
      = some payload := by
  rw [read_until_eoi_result, pureRead_feed payload hp]
  simp [pureRead, List.dropLast_concat]

/-- C1 witness: marker byte 0x7B, delivered bytes H,E,L,L,O,0x7B, then a
secondary-window timeout; the call returns exactly b"HELLO". -/
theorem read_until_eoi_genuine_end_witness :
    (∀ b ∈ [72, 69, 76, 76, 79], b ≠ EOT_BREAK_CHAR)
    ∧ (read_until_eoi initState 2
        (List.map some [72, 69, 76, 76, 79] ++ [some EOT_BREAK_CHAR, none])).result
      = some [72, 69, 76, 76, 79] :=
  ⟨by decide, read_until_eoi_genuine_end initState 2 [72, 69, 76, 76, 79] (by decide)⟩

/-- C2 counterexample: with the trace delivering byte 72, then the marker,
then a second marker inside the secondary window, then silence, the claim
predicts the call returns [72, 0x7B]; the code instead never completes (the
second marker byte is appended without being re-examined, and the loop then
re-issues read directives forever), so within this trace the call does not
return that value. -/
theorem read_until_eoi_double_marker_counterexample :
    (read_until_eoi initState 2
        [some 72, some EOT_BREAK_CHAR, some EOT_BREAK_CHAR, none, none, none]).result
      ≠ some [72, EOT_BREAK_CHAR] := by decide

/-- C2 (amended): when the secondary-window receive succeeds, the loop
appends the newly received byte, restores the primary timeout and resumes the
main receive loop with a fresh receive; the just-received byte is NOT
re-examined by the marker-detection rule.  Consequently, on a trace
delivering marker-free payload, a marker byte, a second marker byte in the
secondary window, and then only timeouts, the call never completes and every
further timeout triggers another read directive. -/
theorem read_until_eoi_secondary_byte_not_reexamined :
    (∀ (hdr : String) (st : ProState) (acc : List Nat) (b : Nat)
        (tail : List (Option Nat)),
      ∃ st' : ProState, st'.timeout = TIMEOUT ∧ st'.sent = st.sent ∧
        readLoop hdr st acc (some EOT_BREAK_CHAR :: some b :: tail)
          = readLoop hdr st' (acc ++ [EOT_BREAK_CHAR, b]) tail)
    ∧ ∀ (st : ProState) (addr : Int) (payload : List Nat),
        (∀ b ∈ payload, b ≠ EOT_BREAK_CHAR) → ∀ k : Nat,
        (read_until_eoi st addr (payload.map some
            ++ [some EOT_BREAK_CHAR, some EOT_BREAK_CHAR]
            ++ List.replicate k none)).result = none
        ∧ (((read_until_eoi st addr (payload.map some
            ++ [some EOT_BREAK_CHAR, some EOT_BREAK_CHAR]
            ++ List.replicate k none)).state.sent).drop
              st.sent.length).count readDirective = k + 1 := by
  constructor
  · intro hdr st acc b tail
    refine ⟨{ st with
                log := st.log ++ [LogEntry.write hdr [EOT_BREAK_CHAR],
                                  LogEntry.event "Potential EOT break",
                                  LogEntry.event "Fake EOT, continuing",
                                  LogEntry.write hdr [b]]
                timeout := TIMEOUT }, rfl, rfl, ?_⟩
    simp [readLoop, List.append_assoc]
  · intro st addr payload hp k
    constructor
    · rw [read_until_eoi_result]
      simp only [List.append_assoc]
      rw [pureRead_feed payload hp]
      simp only [List.cons_append, List.nil_append, pureRead, if_pos rfl]
      exact pureRead_replicate_none k _
    · rw [read_until_eoi_sent]
      simp only [List.append_assoc, List.drop_left]
      rw [sentDelta_feed payload hp]
      simp only [List.cons_append, List.nil_append]
      rw [sentDelta_marker_some, sentDelta_replicate_none_nil]
      by_cases h : st.current_addr = addr <;>
        simp [h, List.count_append, List.count_replicate_self, Nat.add_comm,
              (addrDirective_ne_readDirective addr).symm]

/-- C2 witness for the amended statement: payload [72], double marker, one
trailing timeout: the call does not complete and sends the read directive
twice (once initially, once for the trailing timeout). -/
theorem read_until_eoi_secondary_byte_not_reexamined_witness :
    (∀ b ∈ [72], b ≠ EOT_BREAK_CHAR)
    ∧ ((read_until_eoi initState 2 (List.map some [72]
          ++ [some EOT_BREAK_CHAR, some EOT_BREAK_CHAR]
          ++ List.replicate 1 none)).result = none
      ∧ (((read_until_eoi initState 2 (List.map some [72]
          ++ [some EOT_BREAK_CHAR, some EOT_BREAK_CHAR]
          ++ List.replicate 1 none)).state.sent).drop
            initState.sent.length).count readDirective = 1 + 1) :=
  ⟨by decide,
   read_until_eoi_secondary_byte_not_reexamined.2 initState 2 [72] (by decide) 1⟩

/-- C3: payload bytes, the marker, further (nonempty, marker-free) payload
arriving promptly, the marker again, then a secondary-window timeout: the
call returns first payload ++ first marker ++ further payload (the first
marker treated as data because a byte followed it in the secondary window,
the second marker treated as the terminator and stripped). -/
theorem read_until_eoi_false_positive (st : ProState) (addr : Int)
    (p1 p2 : List Nat) (h1 : ∀ b ∈ p1, b ≠ EOT_BREAK_CHAR)
    (h2 : ∀ b ∈ p2, b ≠ EOT_BREAK_CHAR) (hne : p2 ≠ []) :
    (read_until_eoi st addr
        (p1.map some ++ [some EOT_BREAK_CHAR] ++ p2.map some
          ++ [some EOT_BREAK_CHAR, none])).result
      = some (p1 ++ [EOT_BREAK_CHAR] ++ p2) := by
  obtain ⟨c, p2', rfl⟩ := List.exists_cons_of_ne_nil hne
  have hc : c ≠ EOT_BREAK_CHAR := h2 c (by simp)
  have h2' : ∀ b ∈ p2', b ≠ EOT_BREAK_CHAR := fun b hb => h2 b (by simp [hb])
  rw [read_until_eoi_result]
  simp only [List.append_assoc, List.map_cons, List.cons_append,
             List.singleton_append]
  rw [pureRead_feed p1 h1]
  simp only [pureRead, if_pos rfl, List.nil_append]
  rw [pureRead_feed p2' h2']
  simp only [pureRead, if_pos rfl]
  simp [List.dropLast_concat, List.append_assoc]
  rw [← List.cons_append, List.dropLast_concat]

/-- C3 witness: payload [72], marker, payload [73], marker, timeout: the call
returns [72, 0x7B, 73]. -/
theorem read_until_eoi_false_positive_witness :
    (∀ b ∈ [72], b ≠ EOT_BREAK_CHAR) ∧ (∀ b ∈ [73], b ≠ EOT_BREAK_CHAR)
    ∧ ([73] : List Nat) ≠ []
    ∧ (read_until_eoi initState 2
        (List.map some [72] ++ [some EOT_BREAK_CHAR] ++ List.map some [73]
          ++ [some EOT_BREAK_CHAR, none])).result
      = some ([72] ++ [EOT_BREAK_CHAR] ++ [73]) :=
  ⟨by decide, by decide, by decide,
   read_until_eoi_false_positive initState 2 [72] [73]
     (by decide) (by decide) (by decide)⟩

/-- C4: escape-then-unescape is the identity on every byte sequence, hence
the escaping transform `_escape_cmd` is injective: the bridge can always
recover the original bytes. -/
theorem escape_cmd_roundtrip_injective :
    (∀ text : List Nat, unescape_bridge (_escape_cmd text) = text)
    ∧ Function.Injective _escape_cmd := by
  have rt : ∀ text : List Nat, unescape_bridge (_escape_cmd text) = text := by
    intro text
    induction text with
    | nil => simp [_escape_cmd, unescape_bridge]
    | cons ch rest ih =>
        by_cases h : ch = 10 ∨ ch = 13 ∨ ch = 27 ∨ ch = 43
        · simp only [_escape_cmd, if_pos h, List.cons_append, List.nil_append]
          simp [unescape_bridge, ih]
        · have h27 : ch ≠ 27 := fun hc => h (Or.inr (Or.inr (Or.inl hc)))
          simp only [_escape_cmd, if_neg h, List.cons_append, List.nil_append]
          rw [unescape_bridge_cons_ne ch h27, ih]
  exact ⟨rt, fun a b hab => by rw [← rt a, ← rt b, hab]⟩

/-- C5: a transport that times out N times before producing the first
response byte: the call still returns the correct payload (no timeout
surfaces as an error) and the bytes sent by this call contain the read
directive exactly N+1 times — the initial issue plus one re-issue per
timeout. -/
theorem read_until_eoi_retry_on_stall (st : ProState) (addr : Int) (N : Nat)
    (payload : List Nat) (hp : ∀ b ∈ payload, b ≠ EOT_BREAK_CHAR) :
    (read_until_eoi st addr (List.replicate N none ++ payload.map some
        ++ [some EOT_BREAK_CHAR, none])).result = some payload
    ∧ (((read_until_eoi st addr (List.replicate N none ++ payload.map some
        ++ [some EOT_BREAK_CHAR, none])).state.sent).drop
          st.sent.length).count readDirective = N + 1 := by
  constructor
  · rw [read_until_eoi_result]
    simp only [List.append_assoc]
    rw [pureRead_replicate_none_append, pureRead_feed payload hp]
    simp [pureRead, List.dropLast_concat]
  · rw [read_until_eoi_sent]
    simp only [List.append_assoc, List.drop_left]
    rw [sentDelta_replicate_none N _, sentDelta_feed payload hp]
    simp only [List.cons_append, List.nil_append]
    rw [sentDelta_marker_none]
    by_cases h : st.current_addr = addr <;>
      simp [h, List.count_append, List.count_replicate_self,
            Nat.add_comm, (addrDirective_ne_readDirective addr).symm]

/-- C5 witness: two initial timeouts, payload [65], marker, timeout: the
call returns [65] and this call sent the read directive 2+1 times. -/
theorem read_until_eoi_retry_on_stall_witness :
    (∀ b ∈ [65], b ≠ EOT_BREAK_CHAR)
    ∧ ((read_until_eoi initState 5 (List.replicate 2 none ++ List.map some [65]
        ++ [some EOT_BREAK_CHAR, none])).result = some [65]
      ∧ (((read_until_eoi initState 5 (List.replicate 2 none ++ List.map some [65]
        ++ [some EOT_BREAK_CHAR, none])).state.sent).drop
            initState.sent.length).count readDirective = 2 + 1) :=
  ⟨by decide, read_until_eoi_retry_on_stall initState 5 2 [65] (by decide)⟩

/-- C6: addressing is idempotent in its transport effect — selecting the
same address twice is the same as selecting it once — and the scenario
send(5), send(5), send(2) from a fresh session emits exactly one address-5
directive (before the first command), none between the first two commands,
and one address-2 directive before the third command. -/
theorem address_select_idempotent :
    (∀ (st : ProState) (addr : Int),
      _address_device (_address_device st addr) addr = _address_device st addr)
    ∧ ∀ c1 c2 c3 : List Nat,
        (send_command (send_command (send_command initState c1 5) c2 5) c3 2).sent
          = initState.sent
              ++ [addrDirective 5, _escape_cmd c1 ++ [10], _escape_cmd c2 ++ [10],
                  addrDirective 2, _escape_cmd c3 ++ [10]] := by
  constructor
  · intro st addr
    by_cases h : st.current_addr = addr <;> simp [_address_device, h]
  · intro c1 c2 c3
    have h0 : initState.current_addr = -1 := rfl
    simp [send_command, _address_device, h0, List.append_assoc]

/-- C7: `send_command` sends (after the address-select directive, when one
is needed) exactly the escaped command — every occurrence of LF, CR, ESC,
`+` replaced by ESC followed by the byte, all other bytes unchanged —
followed by one unescaped LF, logs those bytes tagged with the destination
address, and consumes no response. -/
theorem send_command_sends_escaped_cmd (st : ProState) (cmd : List Nat)
    (addr : Int) :
    (send_command st cmd addr).sent
        = st.sent ++ (if st.current_addr ≠ addr then [addrDirective addr] else [])
            ++ [_escape_cmd cmd ++ [10]]
    ∧ (send_command st cmd addr).log
        = st.log ++ [LogEntry.write ("Send to " ++ toString addr)
            (_escape_cmd cmd ++ [10])]
    ∧ _escape_cmd cmd
        = cmd.flatMap (fun ch =>
            if ch = 10 ∨ ch = 13 ∨ ch = 27 ∨ ch = 43 then [27, ch] else [ch]) := by
  refine ⟨?_, ?_, ?_⟩
  · by_cases h : st.current_addr = addr <;>
      simp [send_command, _address_device, h, List.append_assoc]
  · by_cases h : st.current_addr = addr <;>
      simp [send_command, _address_device, h]
  · induction cmd with
    | nil => simp [_escape_cmd]
    | cons c rest ih => simp [_escape_cmd, ih]

/-- C8: both exit paths of the ambiguous-marker branch restore the primary
receive timeout: when the secondary receive times out the call returns with
the timeout back at `TIMEOUT`, and when it succeeds the loop resumes from a
state whose timeout is back at `TIMEOUT`. -/
theorem readLoop_timeout_restored :
    (∀ (hdr : String) (st : ProState) (acc : List Nat)
        (tail : List (Option Nat)),
      (readLoop hdr st acc
          (some EOT_BREAK_CHAR :: none :: tail)).state.timeout = TIMEOUT)
    ∧ ∀ (hdr : String) (st : ProState) (acc : List Nat) (b : Nat)
        (tail : List (Option Nat)),
        ∃ st' : ProState, st'.timeout = TIMEOUT ∧
          readLoop hdr st acc (some EOT_BREAK_CHAR :: some b :: tail)
            = readLoop hdr st' ((acc ++ [EOT_BREAK_CHAR]) ++ [b]) tail := by
  constructor
  · intro hdr st acc tail
    simp [readLoop]
  · intro hdr st acc b tail
    refine ⟨{ st with
                log := st.log ++ [LogEntry.write hdr [EOT_BREAK_CHAR],
                                  LogEntry.event "Potential EOT break",
                                  LogEntry.event "Fake EOT, continuing",
                                  LogEntry.write hdr [b]]
                timeout := TIMEOUT }, rfl, ?_⟩
    simp [readLoop, List.append_assoc]

/-- C9: the `current_addr` session invariant: after `send_command` or
`read_until_eoi` for a target address, `current_addr` equals that address;
the receive loop itself never mutates `current_addr` (only the addressing
routine does); and when the target was not selected, the address-select
directive is sent before the command bytes / read directive. -/
theorem current_addr_invariant :
    (∀ (st : ProState) (cmd : List Nat) (addr : Int),
        (send_command st cmd addr).current_addr = addr)
    ∧ (∀ (st : ProState) (addr : Int) (tr : List (Option Nat)),
        (read_until_eoi st addr tr).state.current_addr = addr)
    ∧ (∀ (hdr : String) (st : ProState) (acc : List Nat)
          (tr : List (Option Nat)),
        (readLoop hdr st acc tr).state.current_addr = st.current_addr)
    ∧ (∀ (st : ProState) (cmd : List Nat) (addr : Int),
        st.current_addr ≠ addr →
        (send_command st cmd addr).sent
          = st.sent ++ [addrDirective addr] ++ [_escape_cmd cmd ++ [10]])
    ∧ ∀ (st : ProState) (addr : Int) (tr : List (Option Nat)),
        st.current_addr ≠ addr →
        (read_until_eoi st addr tr).state.sent
          = st.sent ++ [addrDirective addr] ++ [readDirective] ++ sentDelta tr := by
  refine ⟨?_, ?_, ?_, ?_, ?_⟩
  · intro st cmd addr
    by_cases h : st.current_addr = addr <;>
      simp [send_command, _address_device, h]
  · exact read_until_eoi_current_addr
  · exact fun hdr st acc tr => readLoop_current_addr hdr acc tr st
  · intro st cmd addr h
    simp [send_command, _address_device, h, List.append_assoc]
  · intro st addr tr h
    rw [read_until_eoi_sent]
    simp [h, List.append_assoc]

/-- C9 witness: a fresh session has `current_addr = -1 ≠ 5`; sending [65]
to address 5 sets `current_addr` to 5 and sends the address directive
before the escaped command. -/
theorem current_addr_invariant_witness :
    (send_command initState [65] 5).current_addr = 5
    ∧ initState.current_addr ≠ 5
    ∧ (send_command initState [65] 5).sent
        = initState.sent ++ [addrDirective 5] ++ [_escape_cmd [65] ++ [10]] :=
  ⟨current_addr_invariant.1 initState [65] 5, by decide,
   current_addr_invariant.2.2.2.1 initState [65] 5 (by decide)⟩

/-- C10: an instrument response of zero bytes is representable: if the very
first byte delivered after the read directive is the marker and the
secondary-window receive then times out, the call returns the empty byte
string. -/
theorem read_until_eoi_empty_response (st : ProState) (addr : Int) :
    (read_until_eoi st addr [some EOT_BREAK_CHAR, none]).result = some [] := by
  rw [read_until_eoi_result]
  simp [pureRead]

end Prologix
